import Mathlib

/-!
Shallow embedding of `autoencoder-applications/variational_autoencoder.ipynb`:
a convolutional variational autoencoder (VAE) for MNIST built from Keras
layers.  Tensors that the notebook manipulates elementwise are modelled as
`List ℝ` (one example) or `List (List ℝ)` (a mini-batch); layer shape
propagation is modelled as functions `List ℕ → Option (List ℕ)` following
the Keras shape rules for the layers the notebook instantiates.
-/

namespace VAE

/-! ### Configuration constants (notebook cell-2) -/

/-- Dimensions of MNIST images: `image_shape = (28, 28, 1)`. -/
def image_shape : List ℕ := [28, 28, 1]

/-- Dimension of latent space: `latent_dim = 2`. -/
def latent_dim : ℕ := 2

/-- Mini-batch size for training: `batch_size = 128`. -/
def batch_size : ℕ := 128

/-! ### Keras layer shape rules

The notebook builds its models purely by stacking Keras layers; the layers
themselves (convolution kernels, weight initialisation) are framework
black boxes, but their output-shape rules are part of the graph the
notebook constructs and are modelled here.  A shape is a `List ℕ` of the
per-example dimensions (no batch axis); `none` means the layer rejects the
input shape when the graph is built. -/

/-- Output spatial size of a stride-`s` convolution with `same` padding on
an input of size `h`: the ceiling of `h / s`. -/
def convSameOut (h s : ℕ) : ℕ := (h + s - 1) / s

/-- Shape rule of `layers.Conv2D(filters, 3, padding=same, strides=(s,s))`. -/
def conv2DShape (filters stride : ℕ) : List ℕ → Option (List ℕ)
  | [h, w, _c] => some [convSameOut h stride, convSameOut w stride, filters]
  | _ => none

/-- Shape rule of `layers.Conv2DTranspose(filters, 3, padding=same,
strides=(s,s))`: `same` padding with stride `s` multiplies each spatial
dimension by `s`. -/
def conv2DTransposeShape (filters stride : ℕ) : List ℕ → Option (List ℕ)
  | [h, w, _c] => some [h * stride, w * stride, filters]
  | _ => none

/-- Shape rule of `layers.Flatten()`. -/
def flattenShape (s : List ℕ) : Option (List ℕ) := some [s.prod]

/-- Shape rule of `layers.Dense(units)` on a rank-1 input. -/
def denseShape (units : ℕ) : List ℕ → Option (List ℕ)
  | [_d] => some [units]
  | _ => none

/-- Shape rule of `layers.Reshape(target)`: the element count must match,
otherwise the graph refuses to build. -/
def reshapeShape (target s : List ℕ) : Option (List ℕ) :=
  if s.prod = target.prod then some target else none

/-- The convolutional trunk of `create_encoder`: four `Conv2D` layers
(32 then 64/stride-2 then 64 then 64 filters), `Flatten`, `Dense(32)`. -/
def encoderBodyShape (s : List ℕ) : Option (List ℕ) :=
  ((((((conv2DShape 32 1 s).bind
    (conv2DShape 64 2)).bind
    (conv2DShape 64 1)).bind
    (conv2DShape 64 1)).bind
    flattenShape).bind
    (denseShape 32))

/-- Shape of the two parallel output heads of `create_encoder`:
`t_mean = Dense(latent_dim)(x)` and `t_log_var = Dense(latent_dim)(x)`. -/
def encoderShape (s : List ℕ) : Option (List ℕ × List ℕ) :=
  (encoderBodyShape s).bind fun b =>
    (denseShape latent_dim b).bind fun m =>
      (denseShape latent_dim b).map fun lv => (m, lv)

/-- Shape pipeline of `create_decoder`: `Dense(12544)`, `Reshape((14,14,64))`,
`Conv2DTranspose(32, 3, same, strides=(2,2))`, `Conv2D(1, 3, same)`. -/
def decoderShape (s : List ℕ) : Option (List ℕ) :=
  (((denseShape 12544 s).bind
    (reshapeShape [14, 14, 64])).bind
    (conv2DTransposeShape 32 2)).bind
    (conv2DShape 1 1)

/-- A Keras model maps a batched tensor by applying its per-example shape
rule under the leading batch axis. -/
def batched (f : List ℕ → Option (List ℕ)) : List ℕ → Option (List ℕ)
  | [] => none
  | n :: rest => (f rest).map (n :: ·)

/-- Shape of the composed `vae` model (cell-4): the encoder's `t_mean` head
feeds the sampler, whose output keeps the shape of `t_mean`, and the
decoder consumes it. -/
def vaeShape (s : List ℕ) : Option (List ℕ) :=
  (encoderShape s).bind fun heads => decoderShape heads.1

noncomputable section

/-! ### The sampler (cell-3, `sample`)

`sample` computes `t_sigma = K.sqrt(K.exp(t_log_var))` and returns
`t_mean + t_sigma * epsilon` with all operations elementwise.  The
standard-normal draw `epsilon` is threaded explicitly as an argument. -/

/-- One element of `sample`: `m + sqrt(exp(lv)) * e`. -/
def sampleElt (m lv e : ℝ) : ℝ := m + Real.sqrt (Real.exp lv) * e

/-- `sample` on whole (flattened) tensors, elementwise. -/
def sample (t_mean t_log_var epsilon : List ℝ) : List ℝ :=
  List.zipWith3 sampleElt t_mean t_log_var epsilon

/-! ### The loss (cell-5, `neg_variational_lower_bound`) -/

/-- The backend fuzz factor `K.epsilon() = 1e-7` used by
`K.binary_crossentropy` to clip probabilities. -/
def kEpsilon : ℝ := 1 / 10000000

/-- `K.binary_crossentropy` clips the predicted probability into
`[kEpsilon, 1 - kEpsilon]` before taking logarithms. -/
def clipProb (p : ℝ) : ℝ := max kEpsilon (min (1 - kEpsilon) p)

/-- Elementwise binary cross-entropy of `K.binary_crossentropy(t, p)`:
`-(t * log p + (1 - t) * log (1 - p))` on the clipped probability. -/
def binaryCrossentropy (t p : ℝ) : ℝ :=
  -(t * Real.log (clipProb p) + (1 - t) * Real.log (1 - clipProb p))

/-- Per-example reconstruction loss `rc_loss`: the sum over the flattened
pixels of the binary cross-entropy between original and reconstruction. -/
def rc_loss (x t_decoded : List ℝ) : ℝ :=
  (List.zipWith binaryCrossentropy x t_decoded).sum

/-- Per-example regularization term `kl_loss`:
`-0.5 * K.sum(1 + t_log_var - K.square(t_mean) - K.exp(t_log_var), axis=-1)`. -/
def kl_loss (t_mean t_log_var : List ℝ) : ℝ :=
  -0.5 * (List.zipWith (fun mi lvi => 1 + lvi - mi ^ 2 - Real.exp lvi)
    t_mean t_log_var).sum

/-- `K.mean` of a rank-1 tensor. -/
def kMean (l : List ℝ) : ℝ := l.sum / l.length

/-- The tensors the notebook leaves in the enclosing (module) scope after
building the graph in cell-4; `neg_variational_lower_bound` reads
`t_mean` and `t_log_var` from here, not from its parameters. -/
structure Globals where
  t_mean : List (List ℝ)
  t_log_var : List (List ℝ)

/-- `neg_variational_lower_bound(x, t_decoded)`: per-example reconstruction
loss plus per-example KL term, averaged over the mini-batch.  `t_mean` and
`t_log_var` are captured from the enclosing scope `g`. -/
def neg_variational_lower_bound (g : Globals) (x t_decoded : List (List ℝ)) : ℝ :=
  kMean (List.zipWith (· + ·)
    (List.zipWith rc_loss x t_decoded)
    (List.zipWith kl_loss g.t_mean g.t_log_var))

/-! ### Value-level decoder (`create_decoder`)

The decoder's layers are instantiated with framework-initialised weights;
the model below is parametric in those weights and follows each layer's
elementwise semantics: `Dense(12544, relu)`, `Reshape((14,14,64))`,
`Conv2DTranspose(32, 3, same, relu, strides=(2,2))` and
`Conv2D(1, 3, same, sigmoid)` with zero `same`-padding. -/

/-- The `relu` activation. -/
def relu (x : ℝ) : ℝ := max x 0

/-- The `sigmoid` activation used by the decoder's final `Conv2D` layer. -/
def sigmoid (x : ℝ) : ℝ := 1 / (1 + Real.exp (-x))

/-- The learnable weights of the four decoder layers. -/
structure DecoderWeights where
  denseW : Fin 12544 → Fin latent_dim → ℝ
  denseB : Fin 12544 → ℝ
  tconvW : Fin 3 → Fin 3 → Fin 32 → Fin 64 → ℝ
  tconvB : Fin 32 → ℝ
  convW : Fin 3 → Fin 3 → Fin 32 → ℝ
  convB : ℝ

/-- `layers.Dense(12544, activation=relu)` applied to a latent vector. -/
def denseLayer (W : DecoderWeights) (t : Fin latent_dim → ℝ) : Fin 12544 → ℝ :=
  fun u => relu (W.denseB u + ∑ i, W.denseW u i * t i)

/-- `layers.Reshape((14, 14, 64))`: row-major re-indexing of 12544 units. -/
def reshapeLayer (a : Fin 12544 → ℝ) : Fin 14 → Fin 14 → Fin 64 → ℝ :=
  fun i j c =>
    a ⟨(i.val * 14 + j.val) * 64 + c.val, by
      have hi := i.isLt; have hj := j.isLt; have hc := c.isLt; omega⟩

/-- `layers.Conv2DTranspose(32, 3, padding=same, activation=relu,
strides=(2,2))`: each input cell `(ii, jj)` contributes through kernel tap
`(ki, kj)` to output cell `(2*ii + ki - 1, 2*jj + kj - 1)`. -/
def tconvLayer (W : DecoderWeights) (a : Fin 14 → Fin 14 → Fin 64 → ℝ) :
    Fin 28 → Fin 28 → Fin 32 → ℝ :=
  fun oi oj f => relu (W.tconvB f +
    ∑ ii : Fin 14, ∑ jj : Fin 14, ∑ ki : Fin 3, ∑ kj : Fin 3, ∑ c : Fin 64,
      if oi.val + 1 = 2 * ii.val + ki.val ∧ oj.val + 1 = 2 * jj.val + kj.val
        then W.tconvW ki kj f c * a ii jj c else 0)

/-- `layers.Conv2D(1, 3, padding=same, activation=sigmoid)`: stride-1
convolution with zero padding, one output channel. -/
def convLayer (W : DecoderWeights) (a : Fin 28 → Fin 28 → Fin 32 → ℝ) :
    Fin 28 → Fin 28 → Fin 1 → ℝ :=
  fun oi oj _ => sigmoid (W.convB +
    ∑ ii : Fin 28, ∑ jj : Fin 28, ∑ c : Fin 32, ∑ ki : Fin 3, ∑ kj : Fin 3,
      if ii.val + 1 = oi.val + ki.val ∧ jj.val + 1 = oj.val + kj.val
        then W.convW ki kj c * a ii jj c else 0)

/-- The decoder on one latent vector: the four layers composed. -/
def decode (W : DecoderWeights) (t : Fin latent_dim → ℝ) :
    Fin 28 → Fin 28 → Fin 1 → ℝ :=
  convLayer W (tconvLayer W (reshapeLayer (denseLayer W t)))

/-- The decoder on a batch of `B` latent vectors: batch elements are
processed independently and identically. -/
def decodeBatch {B : ℕ} (W : DecoderWeights) (ts : Fin B → Fin latent_dim → ℝ) :
    Fin B → Fin 28 → Fin 28 → Fin 1 → ℝ :=
  fun n => decode W (ts n)

/-- The textbook closed-form KL divergence between the Gaussians
`N(m, v)` and `N(0, 1)`: `0.5 * (v + m² - 1 - log v)`. -/
def klClosedForm (m v : ℝ) : ℝ := 0.5 * (v + m ^ 2 - 1 - Real.log v)

end

/-! ### Helper lemmas -/

lemma length_zipWith3 {α β γ δ : Type} (f : α → β → γ → δ) :
    ∀ (as : List α) (bs : List β) (cs : List γ),
      (List.zipWith3 f as bs cs).length = min as.length (min bs.length cs.length)
  | [], _, _ => by simp [List.zipWith3]
  | _ :: _, [], _ => by simp [List.zipWith3]
  | _ :: _, _ :: _, [] => by simp [List.zipWith3]
  | _ :: as, _ :: bs, _ :: cs => by
    simp [List.zipWith3, length_zipWith3 f as bs cs]
    omega

lemma kl_summands_nonpos : ∀ (m lv : List ℝ),
    (List.zipWith (fun mi lvi => 1 + lvi - mi ^ 2 - Real.exp lvi) m lv).sum ≤ 0
  | [], _ => by simp
  | _ :: _, [] => by simp
  | a :: as, b :: bs => by
    have h1 : 1 + b - a ^ 2 - Real.exp b ≤ 0 := by
      nlinarith [Real.add_one_le_exp b, sq_nonneg a]
    have h2 := kl_summands_nonpos as bs
    simp only [List.zipWith_cons_cons, List.sum_cons]
    linarith

lemma kl_loss_closed_form_aux : ∀ (m lv : List ℝ),
    kl_loss m lv =
      (List.zipWith (fun mi lvi => klClosedForm mi (Real.exp lvi)) m lv).sum
  | [], _ => by simp [kl_loss]
  | _ :: _, [] => by simp [kl_loss]
  | a :: as, b :: bs => by
    have ih := kl_loss_closed_form_aux as bs
    simp only [kl_loss, klClosedForm, List.zipWith_cons_cons, List.sum_cons,
      Real.log_exp] at ih ⊢
    linarith

lemma sigmoid_mem_unit (x : ℝ) : 0 ≤ sigmoid x ∧ sigmoid x ≤ 1 := by
  have h : 0 < 1 + Real.exp (-x) := by positivity
  constructor
  · unfold sigmoid
    positivity
  · unfold sigmoid
    rw [div_le_one h]
    nlinarith [Real.exp_pos (-x)]

lemma clipProb_pos (p : ℝ) : 0 < clipProb p :=
  lt_of_lt_of_le (by norm_num [kEpsilon]) (le_max_left _ _)

lemma clipProb_le (p : ℝ) : clipProb p ≤ 1 - kEpsilon := by
  apply max_le
  · norm_num [kEpsilon]
  · exact min_le_left _ _

lemma binaryCrossentropy_nonneg (t p : ℝ) (h0 : 0 ≤ t) (h1 : t ≤ 1) :
    0 ≤ binaryCrossentropy t p := by
  have hp0 := clipProb_pos p
  have hp1 := clipProb_le p
  have hk : (0 : ℝ) < kEpsilon := by norm_num [kEpsilon]
  have hl1 : Real.log (clipProb p) ≤ 0 := Real.log_nonpos hp0.le (by linarith)
  have hl2 : Real.log (1 - clipProb p) ≤ 0 :=
    Real.log_nonpos (by linarith) (by linarith)
  unfold binaryCrossentropy
  nlinarith [mul_nonneg h0 (neg_nonneg.mpr hl1),
    mul_nonneg (by linarith : (0 : ℝ) ≤ 1 - t) (neg_nonneg.mpr hl2)]

lemma rc_loss_nonneg_aux : ∀ (x d : List ℝ),
    (∀ a ∈ x, 0 ≤ a ∧ a ≤ 1) → 0 ≤ rc_loss x d
  | [], _, _ => by simp [rc_loss]
  | _ :: _, [], _ => by simp [rc_loss]
  | a :: as, b :: bs, hx => by
    have hb := binaryCrossentropy_nonneg a b
      (hx a (by simp)).1 (hx a (by simp)).2
    have ih := rc_loss_nonneg_aux as bs fun y hy => hx y (by simp [hy])
    simp only [rc_loss, List.zipWith_cons_cons, List.sum_cons]
    simp only [rc_loss] at ih
    linarith

lemma zip_add_aux : ∀ (x d m lv : List (List ℝ)),
    List.zipWith (· + ·) (List.zipWith rc_loss x d)
        (List.zipWith kl_loss m lv) =
      List.zipWith (fun p q => rc_loss p.1 p.2 + kl_loss q.1 q.2)
        (x.zip d) (m.zip lv)
  | [], _, _, _ => by simp
  | _ :: _, [], _, _ => by simp
  | _ :: _, _ :: _, [], _ => by simp
  | _ :: _, _ :: _, _ :: _, [] => by simp
  | _ :: as, _ :: bs, _ :: cs, _ :: es => by
    simp [zip_add_aux as bs cs es]

/-! ### Claims -/

/-- C5: for an example whose mean vector and log-variance vector are all
zeros (posterior equal to the standard normal prior), the KL-divergence
term `kl_loss` of the loss evaluates to exactly 0, in any latent
dimensionality `d`. -/
theorem kl_loss_zero_at_standard_prior (d : ℕ) :
    kl_loss (List.replicate d 0) (List.replicate d 0) = 0 := by
  simp [kl_loss, Real.exp_zero]

/-- C6: for every real-valued mean vector and log-variance vector, the
per-example KL term `-0.5 * sum(1 + log_variance - mean² - exp(log_variance))`
computed by the loss is non-negative. -/
theorem kl_loss_nonneg (m lv : List ℝ) : 0 ≤ kl_loss m lv := by
  have h := kl_summands_nonpos m lv
  simp only [kl_loss]
  linarith

/-- C2: the per-example regularization term of the loss equals
`-0.5 * sum` over the latent dimensions of
`(1 + log_variance - mean² - exp(log_variance))`, and this equals the sum
over the latent dimensions of the closed-form KL divergence between
`Normal(mean, exp(log_variance))` and the standard normal prior. -/
theorem kl_term_is_closed_form_KL (m lv : List ℝ) :
    kl_loss m lv =
      -0.5 * (List.zipWith (fun mi lvi => 1 + lvi - mi ^ 2 - Real.exp lvi)
        m lv).sum ∧
    kl_loss m lv =
      (List.zipWith (fun mi lvi => klClosedForm mi (Real.exp lvi)) m lv).sum :=
  ⟨rfl, kl_loss_closed_form_aux m lv⟩

/-- C8: for equal-shaped `mean`, `log_variance` and `epsilon`, the sampler
output has the same shape as `mean`; and the output is a deterministic
function of `mean`, `log_variance` and the drawn `epsilon`: with the
entropy source fixed (same `epsilon`), identical inputs give identical
outputs. -/
theorem sample_shape_deterministic (m lv e : List ℝ)
    (h1 : lv.length = m.length) (h2 : e.length = m.length) :
    (sample m lv e).length = m.length ∧
      ∀ m2 lv2 e2 : List ℝ, m2 = m → lv2 = lv → e2 = e →
        sample m2 lv2 e2 = sample m lv e := by
  constructor
  · rw [sample, length_zipWith3, h1, h2]
    simp
  · rintro _ _ _ rfl rfl rfl
    rfl

/-- Witness for C8 at concrete equal-shaped inputs. -/
theorem sample_shape_deterministic_witness :
    (sample [(0 : ℝ), 1] [0, 0] [1, 2]).length = ([(0 : ℝ), 1] : List ℝ).length :=
  (sample_shape_deterministic [0, 1] [0, 0] [1, 2] rfl rfl).1

/-- C10: the composed Encoder→Sampler→Decoder graph is shape-consistent:
the encoder's two heads have the configured `latent_dim`, the decoder's
`Dense(12544)` output exactly fills the `Reshape((14,14,64))` target
(`12544 = 14 * 14 * 64`), the stride-2 transposed convolution restores the
`14 × 14` grid to `28 × 28`, and the composed `vae` maps the image shape
to itself. -/
theorem vae_shapes_consistent :
    encoderShape image_shape = some ([latent_dim], [latent_dim]) ∧
    denseShape 12544 [latent_dim] = some [12544] ∧
    reshapeShape [14, 14, 64] [12544] = some [14, 14, 64] ∧
    conv2DTransposeShape 32 2 [14, 14, 64] = some [28, 28, 32] ∧
    decoderShape [latent_dim] = some image_shape ∧
    vaeShape image_shape = some image_shape :=
  ⟨rfl, rfl, rfl, rfl, rfl, rfl⟩

/-- C9: for every batch of latent vectors of the configured latent
dimensionality, the decoder returns a batch of reconstructions shaped like
the original images — shape `(4, 28, 28, 1)` for a batch of shape
`(4, 2)` — and for all weights and inputs every output entry lies in
`[0, 1]` because the final activation is a sigmoid. -/
theorem decoder_shape_and_range :
    (∀ b : ℕ, batched decoderShape [b, latent_dim] = some (b :: image_shape)) ∧
    batched decoderShape [4, latent_dim] = some [4, 28, 28, 1] ∧
    ∀ (B : ℕ) (W : DecoderWeights) (ts : Fin B → Fin latent_dim → ℝ)
      (n : Fin B) (i j : Fin 28) (c : Fin 1),
      0 ≤ decodeBatch W ts n i j c ∧ decodeBatch W ts n i j c ≤ 1 := by
  refine ⟨fun b => rfl, rfl, ?_⟩
  intro B W ts n i j c
  exact sigmoid_mem_unit _

/-- C1: the sampler returns exactly `mean + sqrt(exp(log_variance)) * epsilon`
elementwise, and mapping a standard normal draw through this affine
transformation yields, elementwise, exactly the Gaussian
`Normal(mean, exp(log_variance))`. -/
theorem sampler_is_reparameterized_gaussian :
    (∀ (m lv e : List ℝ),
      sample m lv e = List.zipWith3
        (fun mi lvi ei => mi + Real.sqrt (Real.exp lvi) * ei) m lv e) ∧
    ∀ (m lv : ℝ),
      (ProbabilityTheory.gaussianReal 0 1).map (sampleElt m lv) =
        ProbabilityTheory.gaussianReal m (Real.exp lv).toNNReal := by
  refine ⟨fun m lv e => rfl, fun m lv => ?_⟩
  have hs : Real.sqrt (Real.exp lv) ^ 2 = Real.exp lv :=
    Real.sq_sqrt (Real.exp_nonneg lv)
  have hfun : sampleElt m lv = (m + ·) ∘ (Real.sqrt (Real.exp lv) * ·) := by
    funext e
    rfl
  have hmeas1 : Measurable (Real.sqrt (Real.exp lv) * ·) :=
    measurable_id.const_mul _
  have hmeas2 : Measurable (m + ·) := measurable_id.const_add m
  rw [hfun, ← MeasureTheory.Measure.map_map hmeas2 hmeas1,
    ProbabilityTheory.gaussianReal_map_const_mul,
    ProbabilityTheory.gaussianReal_map_const_add]
  have hv : (⟨Real.sqrt (Real.exp lv) ^ 2, sq_nonneg _⟩ : NNReal) * 1 =
      (Real.exp lv).toNNReal := by
    apply NNReal.coe_injective
    rw [NNReal.coe_mul, NNReal.coe_one, mul_one,
      Real.coe_toNNReal _ (Real.exp_nonneg lv)]
    exact hs
  rw [mul_zero, zero_add, hv]

/-- C3: the scalar returned by the loss equals the arithmetic mean over the
batch of (per-example reconstruction term + per-example KL term), the two
terms added per example unweighted before batch averaging. -/
theorem loss_is_batch_mean (g : Globals) (x d : List (List ℝ))
    (hd : d.length = x.length) (hm : g.t_mean.length = x.length)
    (hlv : g.t_log_var.length = x.length) :
    neg_variational_lower_bound g x d =
      (List.zipWith (fun p q => rc_loss p.1 p.2 + kl_loss q.1 q.2)
        (x.zip d) (g.t_mean.zip g.t_log_var)).sum / x.length := by
  unfold neg_variational_lower_bound kMean
  rw [zip_add_aux]
  congr 2
  simp [List.length_zipWith, List.length_zip, hd, hm, hlv]

/-- Witness for C3 on a concrete singleton batch. -/
theorem loss_is_batch_mean_witness :
    neg_variational_lower_bound ⟨[[0]], [[0]]⟩ [[(0 : ℝ)]] [[1 / 2]] =
      (List.zipWith (fun p q => rc_loss p.1 p.2 + kl_loss q.1 q.2)
        (List.zip [[(0 : ℝ)]] [[1 / 2]])
        (List.zip [[(0 : ℝ)]] [[(0 : ℝ)]])).sum /
        ([[(0 : ℝ)]] : List (List ℝ)).length := by
  exact loss_is_batch_mean ⟨[[0]], [[0]]⟩ [[0]] [[1 / 2]] rfl rfl rfl

/-- Counterexample for C4: with identical image and reconstruction batches,
changing only the enclosing-scope `t_mean` tensor changes the scalar the
loss returns, so the loss is not a function of its explicit arguments
alone. -/
theorem loss_reads_enclosing_scope :
    neg_variational_lower_bound ⟨[[0]], [[0]]⟩ [[(0 : ℝ)]] [[1 / 2]] ≠
      neg_variational_lower_bound ⟨[[1]], [[0]]⟩ [[(0 : ℝ)]] [[1 / 2]] := by
  have h1 : kl_loss [0] [0] = 0 := by
    simp [kl_loss, Real.exp_zero]
  have h2 : kl_loss [1] [0] = 1 / 2 := by
    simp [kl_loss, Real.exp_zero]
    norm_num
  simp only [neg_variational_lower_bound, kMean, List.zipWith_cons_cons,
    List.zipWith_nil_right, List.sum_cons, List.sum_nil, h1, h2]
  intro h
  simp at h

/-- C4 amended: the loss reads `t_mean` and `t_log_var` from the enclosing
scope rather than taking them as parameters; it is a deterministic (pure)
function of its explicit arguments together with that captured state — two
invocations with identical image and reconstruction batches and identical
enclosing-scope `t_mean`/`t_log_var` return the same scalar. -/
theorem loss_pure_given_captured_scope (g g2 : Globals)
    (x d x2 d2 : List (List ℝ)) (hx : x2 = x) (hd : d2 = d)
    (hm : g2.t_mean = g.t_mean) (hlv : g2.t_log_var = g.t_log_var) :
    neg_variational_lower_bound g2 x2 d2 = neg_variational_lower_bound g x d := by
  unfold neg_variational_lower_bound
  rw [hx, hd, hm, hlv]

/-- Witness for the amended C4 at concrete inputs. -/
theorem loss_pure_given_captured_scope_witness :
    neg_variational_lower_bound ⟨[[0]], [[0]]⟩ [[(0 : ℝ)]] [[1 / 2]] =
      neg_variational_lower_bound ⟨[[0]], [[0]]⟩ [[(0 : ℝ)]] [[1 / 2]] :=
  loss_pure_given_captured_scope ⟨[[0]], [[0]]⟩ ⟨[[0]], [[0]]⟩
    [[0]] [[1 / 2]] [[0]] [[1 / 2]] rfl rfl rfl rfl

/-- C7: for every original image with all pixel values in `[0, 1]` and every
reconstruction with all entries in `[0, 1]`, the per-example reconstruction
term (sum over pixels of binary cross-entropy) is non-negative. -/
theorem rc_loss_nonneg (x d : List ℝ)
    (hx : ∀ a ∈ x, 0 ≤ a ∧ a ≤ 1) (_hd : ∀ b ∈ d, 0 ≤ b ∧ b ≤ 1) :
    0 ≤ rc_loss x d :=
  rc_loss_nonneg_aux x d hx

/-- Witness for C7 on a concrete image/reconstruction pair. -/
theorem rc_loss_nonneg_witness :
    (∀ a ∈ ([0, 1] : List ℝ), 0 ≤ a ∧ a ≤ 1) ∧
      (∀ b ∈ ([1 / 2, 1 / 2] : List ℝ), 0 ≤ b ∧ b ≤ 1) ∧
      0 ≤ rc_loss [0, 1] [1 / 2, 1 / 2] := by
  have hx : ∀ a ∈ ([0, 1] : List ℝ), 0 ≤ a ∧ a ≤ 1 := by
    intro a ha
    simp only [List.mem_cons, List.not_mem_nil, or_false] at ha
    rcases ha with rfl | rfl <;> norm_num
  have hd : ∀ b ∈ ([1 / 2, 1 / 2] : List ℝ), 0 ≤ b ∧ b ≤ 1 := by
    intro b hb
    simp only [List.mem_cons, List.not_mem_nil, or_false] at hb
    rcases hb with rfl | rfl <;> norm_num
  exact ⟨hx, hd, rc_loss_nonneg [0, 1] [1 / 2, 1 / 2] hx hd⟩

end VAE
